import Mathlib

/-!
Shallow embedding of the `amicompat` audit pipeline
(`src/amicompat_mcp/core/{analyzer,formatter,detector,baseline_api}.py`)
together with proofs about the claims of its specification.

Conventions used throughout:
* Python dictionaries are modelled as association lists (`List (key × value)`)
  read through `List.lookup`; insertion conses the new binding in front, which
  has the same `lookup` semantics as a Python dict update.
* Python's `list.sort(key=...)` (Timsort) is modelled by `sortLe`, a stable
  insertion sort with respect to the boolean comparison `key a ≤ key b`.
  A stable sort is determined uniquely by that specification, so the model is
  exact.
* Python floats are modelled by `ℚ`; `round(x, 1)` is modelled by `round1`
  (round half to even, as Python does on exactly representable values).
* Fallible code paths are modelled with `Option`/`Except`.
-/

/-- Stable insertion of `x` into `l`: `x` is placed after every element `y`
with `le y x = true`.  Helper for the model of Python's stable sort. -/
def insertLe {α : Type} (le : α → α → Bool) (x : α) : List α → List α
  | [] => [x]
  | y :: ys => if le y x then y :: insertLe le x ys else x :: y :: ys

/-- Model of Python's stable `list.sort` with comparison `le` (ascending):
elements are inserted left to right, so among `le`-equivalent elements the
original order is preserved, exactly as Timsort guarantees. -/
def sortLe {α : Type} (le : α → α → Bool) (l : List α) : List α :=
  l.foldl (fun acc x => insertLe le x acc) []

theorem mem_insertLe {α : Type} (le : α → α → Bool) (x a : α) :
    ∀ l : List α, a ∈ insertLe le x l ↔ a = x ∨ a ∈ l := by
  intro l
  induction l with
  | nil => simp [insertLe]
  | cons y ys ih =>
    cases hc : le y x with
    | true =>
      simp only [insertLe, hc, if_true, List.mem_cons, ih]
      try tauto
    | false =>
      simp only [insertLe, hc, Bool.false_eq_true, if_false, List.mem_cons]
      try tauto

theorem mem_sortLe_aux {α : Type} (le : α → α → Bool) (a : α) :
    ∀ (l acc : List α),
      a ∈ l.foldl (fun acc x => insertLe le x acc) acc ↔ a ∈ l ∨ a ∈ acc := by
  intro l
  induction l with
  | nil => simp
  | cons x xs ih =>
    intro acc
    simp only [List.foldl_cons, ih, mem_insertLe, List.mem_cons]
    tauto

theorem mem_sortLe {α : Type} (le : α → α → Bool) (a : α) (l : List α) :
    a ∈ sortLe le l ↔ a ∈ l := by
  simp [sortLe, mem_sortLe_aux]

theorem pairwise_insertLe {α : Type} (le : α → α → Bool)
    (htrans : ∀ a b c, le a b = true → le b c = true → le a c = true)
    (htotal : ∀ a b, le a b = true ∨ le b a = true) (x : α) :
    ∀ l : List α, l.Pairwise (fun a b => le a b = true) →
      (insertLe le x l).Pairwise (fun a b => le a b = true) := by
  intro l
  induction l with
  | nil => simp [insertLe]
  | cons y ys ih =>
    intro hp
    rcases List.pairwise_cons.mp hp with ⟨hy, hys⟩
    by_cases h : le y x = true
    · simp only [insertLe, h, if_true]
      refine List.pairwise_cons.mpr ⟨?_, ih hys⟩
      intro z hz
      rcases (mem_insertLe le x z ys).mp hz with rfl | hz'
      · exact h
      · exact hy z hz'
    · simp only [insertLe, h, if_false]
      refine List.pairwise_cons.mpr ⟨?_, hp⟩
      intro z hz
      have hxy : le x y = true := by
        rcases htotal x y with h' | h'
        · exact h'
        · exact absurd h' h
      rcases List.mem_cons.mp hz with rfl | hz'
      · exact hxy
      · exact htrans x y z hxy (hy z hz')

theorem pairwise_sortLe_aux {α : Type} (le : α → α → Bool)
    (htrans : ∀ a b c, le a b = true → le b c = true → le a c = true)
    (htotal : ∀ a b, le a b = true ∨ le b a = true) :
    ∀ (l acc : List α), acc.Pairwise (fun a b => le a b = true) →
      (l.foldl (fun acc x => insertLe le x acc) acc).Pairwise
        (fun a b => le a b = true) := by
  intro l
  induction l with
  | nil => intro acc h; simpa using h
  | cons x xs ih =>
    intro acc h
    exact ih _ (pairwise_insertLe le htrans htotal x acc h)

theorem pairwise_sortLe {α : Type} (le : α → α → Bool)
    (htrans : ∀ a b c, le a b = true → le b c = true → le a c = true)
    (htotal : ∀ a b, le a b = true ∨ le b a = true) (l : List α) :
    (sortLe le l).Pairwise (fun a b => le a b = true) :=
  pairwise_sortLe_aux le htrans htotal l [] (List.Pairwise.nil)

/-- In a list pairwise-sorted by `le`, an element `a` that is strictly below
`b` (`le b a = false`, with `le` reflexive) occurs before `b`: `[a, b]` is a
sublist. -/
theorem pair_sublist_of_pairwise {α : Type} (le : α → α → Bool)
    (hrefl : ∀ a, le a a = true) :
    ∀ (l : List α) (a b : α), l.Pairwise (fun x y => le x y = true) →
      a ∈ l → b ∈ l → le b a = false → List.Sublist [a, b] l := by
  intro l
  induction l with
  | nil => intro a b _ ha; simp at ha
  | cons h t ih =>
    intro a b hp ha hb hba
    rcases List.pairwise_cons.mp hp with ⟨hh, ht⟩
    rcases List.mem_cons.mp ha with rfl | hat
    · have hbt : b ∈ t := by
        rcases List.mem_cons.mp hb with rfl | hbt
        · rw [hrefl b] at hba; cases hba
        · exact hbt
      exact List.Sublist.cons₂ a (List.singleton_sublist.mpr hbt)
    · have hbt : b ∈ t := by
        rcases List.mem_cons.mp hb with rfl | hbt
        · have := hh a hat
          rw [this] at hba; cases hba
        · exact hbt
      exact List.Sublist.cons h (ih a b ht hat hbt hba)

/-- Round half to even on `ℚ`, returning an integer; models Python's `round`
on an exactly representable value. -/
def rhalfEven (x : ℚ) : ℤ :=
  if x - (⌊x⌋ : ℚ) < 1/2 then ⌊x⌋
  else if 1/2 < x - (⌊x⌋ : ℚ) then ⌊x⌋ + 1
  else if ⌊x⌋ % 2 = 0 then ⌊x⌋ else ⌊x⌋ + 1

/-- Model of Python's `round(x, 1)`. -/
def round1 (x : ℚ) : ℚ := (rhalfEven (10 * x) : ℚ) / 10

theorem rhalfEven_nonneg {x : ℚ} (hx : 0 ≤ x) : 0 ≤ rhalfEven x := by
  have hf : (0 : ℤ) ≤ ⌊x⌋ := Int.floor_nonneg.mpr hx
  unfold rhalfEven
  split
  · exact hf
  · split
    · omega
    · split
      · exact hf
      · omega

theorem rhalfEven_le {x M : ℚ} (hM : x ≤ M) (hMint : ∃ m : ℤ, (m : ℚ) = M) :
    (rhalfEven x : ℚ) ≤ M := by
  obtain ⟨m, rfl⟩ := hMint
  have hfm : ⌊x⌋ ≤ m := by
    have := Int.floor_le_floor hM
    simpa using this
  unfold rhalfEven
  split
  · exact_mod_cast hfm
  · rename_i hr
    push_neg at hr
    have hfloor : (⌊x⌋ : ℚ) ≤ x := Int.floor_le x
    have hlt : (⌊x⌋ : ℚ) ≤ (m : ℚ) - 1/2 := by linarith
    have hlt' : ⌊x⌋ < m := by
      by_contra hcon
      push_neg at hcon
      have : (m : ℚ) ≤ (⌊x⌋ : ℚ) := by exact_mod_cast hcon
      linarith
    split
    · exact_mod_cast hlt'
    · split
      · exact_mod_cast hfm
      · exact_mod_cast hlt'

theorem round1_nonneg {x : ℚ} (hx : 0 ≤ x) : 0 ≤ round1 x := by
  unfold round1
  have : (0 : ℚ) ≤ (rhalfEven (10 * x) : ℚ) := by
    exact_mod_cast rhalfEven_nonneg (by linarith)
  positivity

theorem round1_le_100 {x : ℚ} (hx : x ≤ 100) : round1 x ≤ 100 := by
  unfold round1
  have h10 : 10 * x ≤ 1000 := by linarith
  have := rhalfEven_le (M := 1000) h10 ⟨1000, by norm_num⟩
  linarith

/-- A browser version value in a status record's `browsers` mapping: the JSON
may carry a string or a number (`analyzer.py` checks `isinstance(..., str)`). -/
inductive BVer : Type
  | str (s : String)
  | num (q : ℚ)
deriving DecidableEq

/-- The analyzer's view of a feature's attached status record (a Python dict
read with `.get`, so each key may be absent; an absent or null value is
`none`). -/
structure AStatus : Type where
  baseline_status : Option String
  browsers : List (String × BVer)
  name : Option String
deriving DecidableEq

/-- One entry of the feature map handed to `Analyzer.analyze` /
`Formatter.format_report`: the accumulated hits for one feature.
`status = none` models a feature dict without a `"status"` key. -/
structure FeatureData : Type where
  status : Option AStatus
  total_hits : Nat
  files : List (String × Nat)
deriving DecidableEq

/-- `data.get("status", {}).get("baseline_status", "limited")`
(`analyzer.py` lines 76-77, for a non-null status value). -/
def baselineOf (d : FeatureData) : String :=
  ((d.status.bind (fun s => s.baseline_status)).getD "limited")

/-- `data.get("status", {}).get("browsers", {})` (`analyzer.py` line 100). -/
def statusBrowsers (d : FeatureData) : List (String × BVer) :=
  (d.status.map (fun s => s.browsers)).getD []

/-- The analyzer's fixed browser list (`analyzer.py` line 22). -/
def browsersList : List String := ["chrome", "firefox", "safari", "edge"]

/-- The default target name (`AMICOMPAT_DEFAULT_TARGET` unset, so
"baseline-2024"; `analyzer.py` line 20). -/
def targetName : String := "baseline-2024"

/-- Minimum browser versions of the active "baseline-2024" target.  The
repository ships no `config/targets.json`, so `_load_targets_map` falls back
to the built-in default table (`analyzer.py` lines 28-34); the `0` branch is
never reached for the four browsers of `browsersList`. -/
def targetVersions (b : String) : ℚ :=
  if b = "chrome" then 121
  else if b = "firefox" then 122
  else if b = "safari" then 17
  else if b = "edge" then 121
  else 0

/-- Decimal-digit string to `Nat`, `none` when empty or non-digit. -/
def digitsToNat : List Char → Option Nat
  | [] => none
  | l => l.foldl (fun acc c => match acc with
      | none => none
      | some n => if c.isDigit then some (n * 10 + (c.toNat - 48)) else none)
      (some 0)

/-- Models Python `float(s)` on the inputs the analyzer produces (the segment
of a version string before the first `.`): an optionally signed run of
decimal digits; anything else raises `ValueError`, modelled as `none`. -/
def parseFloatSimple (l : List Char) : Option ℚ :=
  match l with
  | '-' :: rest => (digitsToNat rest).map (fun n => -(n : ℚ))
  | '+' :: rest => (digitsToNat rest).map (fun n => (n : ℚ))
  | _ => (digitsToNat l).map (fun n => (n : ℚ))

/-- Major version of a reported browser support value (`analyzer.py` lines
104-109): a string is split at the first `.` and parsed as a float, a
numeric value is used as is; a parse failure is `none` (the caught
`ValueError`/`TypeError`). -/
def majorVersion : BVer → Option ℚ
  | BVer.str s => parseFloatSimple (s.toList.takeWhile (fun c => !(c = '.')))
  | BVer.num q => some q

/-- The analyzer's support bit for one feature on one browser
(`analyzer.py` lines 101-117): 1 when the browser is present in the feature's
support map with a parsable version at least the target minimum, else 0. -/
def supportBit (b : String) (d : FeatureData) : Nat :=
  match (statusBrowsers d).lookup b with
  | none => 0
  | some v =>
    match majorVersion v with
    | none => 0
    | some ver => if targetVersions b ≤ ver then 1 else 0

/-- Per-browser coverage before rounding (`analyzer.py` lines 126-131). -/
def coverageFor (features : List (String × FeatureData)) (b : String) : ℚ :=
  let support := features.map (fun p => supportBit b p.2)
  if support.isEmpty then 100
  else ((support.sum : ℚ) / (support.length : ℚ)) * 100

/-- A risk candidate tuple `(feature_id, total_hits, file_count, tag)`
(`analyzer.py` lines 84-97). -/
def Risk : Type := String × Nat × Nat × String

instance : DecidableEq Risk := by
  unfold Risk
  infer_instance

/-- The risk candidates appended by the classification loop, in feature-map
order: every non-`widely` feature contributes one tuple tagged `"newly"` or
`"limited"` (`analyzer.py` lines 75-97). -/
def riskCandidates (features : List (String × FeatureData)) : List Risk :=
  features.filterMap (fun p =>
    if baselineOf p.2 = "widely" then none
    else if baselineOf p.2 = "newly" then
      some (p.1, p.2.total_hits, p.2.files.length, "newly")
    else some (p.1, p.2.total_hits, p.2.files.length, "limited"))

/-- Status priority of a risk tag: `0 if x[3] == "limited" else 1`
(`analyzer.py` line 135). -/
def riskRank (tag : String) : Nat := if tag = "limited" then 0 else 1

/-- The sort key comparison of `risks.sort(key=lambda x: (0 if x[3] ==
"limited" else 1, -x[1], -x[2]))` (`analyzer.py` lines 134-138):
lexicographic on (status priority, descending hits, descending file count). -/
def riskLE (a b : Risk) : Bool :=
  decide (riskRank a.2.2.2 < riskRank b.2.2.2
    ∨ (riskRank a.2.2.2 = riskRank b.2.2.2
        ∧ (b.2.1 < a.2.1 ∨ (a.2.1 = b.2.1 ∧ b.2.2.1 ≤ a.2.2.1))))

/-- The analyzer's stable risk sort. -/
def sortRisks (rs : List Risk) : List Risk := sortLe riskLE rs

/-- The metrics dictionary returned by `Analyzer.analyze`
(`analyzer.py` lines 142-151). -/
structure Metrics : Type where
  global_score : ℚ
  widely_count : Nat
  newly_count : Nat
  limited_count : Nat
  browser_coverage : List (String × ℚ)
  top_risks : List String
  total_features : Nat
  target : String
deriving DecidableEq

/-- `Analyzer._empty_metrics` (`analyzer.py` lines 153-164). -/
def emptyMetrics : Metrics :=
  { global_score := 100
    widely_count := 0
    newly_count := 0
    limited_count := 0
    browser_coverage := browsersList.map (fun b => (b, 100))
    top_risks := []
    total_features := 0
    target := targetName }

/-- `Analyzer.analyze` (`analyzer.py` lines 54-151): classify each feature by
baseline status, compute the global score, per-browser coverage, and the top
five risks.  Counting with `countP` and collecting risks with `riskCandidates`
reproduce the single classification loop of the source. -/
def analyze (features : List (String × FeatureData)) : Metrics :=
  if features.isEmpty then emptyMetrics
  else
    let w := features.countP (fun p => baselineOf p.2 == "widely")
    let n := features.countP (fun p => baselineOf p.2 == "newly")
    let lim := features.countP
      (fun p => !(baselineOf p.2 == "widely") && !(baselineOf p.2 == "newly"))
    let total := w + n + lim
    let gs : ℚ :=
      if 0 < total then (((w : ℚ) * 1 + (n : ℚ) * (1/2)) / (total : ℚ)) * 100
      else 0
    { global_score := round1 gs
      widely_count := w
      newly_count := n
      limited_count := lim
      browser_coverage :=
        browsersList.map (fun b => (b, round1 (coverageFor features b)))
      top_risks := ((sortRisks (riskCandidates features)).take 5).map
        (fun r => r.1)
      total_features := total
      target := targetName }

/-- Substring test on character lists, modelling Python's `in` on strings. -/
def hasSub (pat : List Char) : List Char → Bool
  | [] => pat.isPrefixOf []
  | c :: rest => pat.isPrefixOf (c :: rest) || hasSub pat rest

/-- Python `needle in hay` for strings. -/
def strContains (hay needle : String) : Bool := hasSub needle.toList hay.toList

/-- One entry of the report's feature list (`formatter.py` lines 24-36). -/
structure FeatureEntry : Type where
  id : String
  name : String
  status : String
  browsers : List (String × BVer)
  files : List (String × Nat)
  total_hits : Nat
  file_count : Nat
deriving DecidableEq

/-- Status priority used by `format_report`'s sort:
`0 if limited else (1 if newly else 2)` (`formatter.py` line 41). -/
def rank3 (s : String) : Nat :=
  if s = "limited" then 0 else if s = "newly" then 1 else 2

/-- The sort key comparison of `feature_list.sort(key=lambda x: (..., -x["total_hits"]))`
(`formatter.py` lines 40-43): lexicographic on (status priority, descending
total hits). -/
def fmtLe (a b : FeatureEntry) : Bool :=
  decide (rank3 a.status < rank3 b.status
    ∨ (rank3 a.status = rank3 b.status ∧ b.total_hits ≤ a.total_hits))

/-- Building one feature entry (`formatter.py` lines 22-37): the file list is
stably sorted by descending hits (`sorted(..., reverse=True)`) and truncated
to the top 10. -/
def mkEntry (fid : String) (d : FeatureData) : FeatureEntry :=
  { id := fid
    name := (d.status.bind (fun s => s.name)).getD fid
    status := baselineOf d
    browsers := statusBrowsers d
    files := (sortLe (fun a b : String × Nat => decide (b.2 ≤ a.2)) d.files).take 10
    total_hits := d.total_hits
    file_count := d.files.length }

/-- `Formatter._generate_actions` (`formatter.py` lines 181-216). -/
def generateActions (features : List (String × FeatureData))
    (top_risks : List String) : List String :=
  let actions := (top_risks.take 3).foldl (fun acc risk =>
    match features.lookup risk with
    | none => acc
    | some d =>
      let status := baselineOf d
      let top_file := match d.files with
        | [] => "unknown"
        | f :: _ => f.1
      if status = "limited" then
        if strContains risk "container" then
          acc ++ ["Replace @container with media queries in " ++ top_file]
        else if strContains risk "subgrid" then
          acc ++ ["Use nested grids instead of subgrid in " ++ top_file]
        else if strContains risk "has" then
          acc ++ ["Refactor :has() with JavaScript fallback in " ++ top_file]
        else if strContains risk "dialog" then
          acc ++ ["Add dialog polyfill or use modal library"]
        else acc ++ ["Add polyfill for " ++ risk]
      else if status = "newly" then
        acc ++ ["Test " ++ risk ++ " in older browsers (newly available)"]
      else acc) []
  let actions :=
    if actions.isEmpty then
      if features.isEmpty then ["No compatibility issues detected"]
      else ["All detected features have good browser support"]
    else actions
  actions.take 5

/-- The `summary` part of the report (`formatter.py` lines 48-54). -/
structure Summary : Type where
  files_scanned : Nat
  features_total : Nat
  score_global : ℚ
  coverage_by_browser : List (String × ℚ)
  target : String
deriving DecidableEq

/-- The report returned by `Formatter.format_report` (`formatter.py` lines
47-58).  `generated_at` is the wall-clock timestamp, passed in as a
parameter since the embedding is pure. -/
structure Report : Type where
  summary : Summary
  features : List FeatureEntry
  next_actions : List String
  generated_at : String
deriving DecidableEq

/-- `Formatter.format_report` (`formatter.py` lines 8-58). -/
def formatReport (features : List (String × FeatureData)) (metrics : Metrics)
    (files_count : Nat) (timestamp : String) : Report :=
  { summary :=
      { files_scanned := files_count
        features_total := metrics.total_features
        score_global := metrics.global_score
        coverage_by_browser := metrics.browser_coverage
        target := metrics.target }
    features := sortLe fmtLe (features.map (fun p => mkEntry p.1 p.2))
    next_actions := generateActions features metrics.top_risks
    generated_at := timestamp }

/-- The line-comment pass `re.sub(r'//.*$', '', content, flags=re.MULTILINE)`
(`detector.py` line 129) as a character scanner.  State `true` means the
scanner is inside a line comment and is discarding characters up to (but not
including) the next newline — exactly the span the regex deletes, line by
line, starting at the first `//` of each line. -/
def stripLineAux : Bool → List Char → List Char
  | _, [] => []
  | true, c :: rest =>
    if c = '\n' then c :: stripLineAux false rest
    else stripLineAux true rest
  | false, c1 :: c2 :: rest =>
    if c1 = '/' ∧ c2 = '/' then stripLineAux true rest
    else c1 :: stripLineAux false (c2 :: rest)
  | false, [c] => [c]

/-- The line-comment pass on whole content. -/
def stripLineComments (l : List Char) : List Char := stripLineAux false l

/-- The block-comment pass `re.sub(r'/\*.*?\*/', '', content, flags=re.DOTALL)`
(`detector.py` line 130) as a character scanner.  State `true` means the
scanner is inside a matched block comment and is discarding up to and
including the next `*/`.  A `/*` is entered only when a `*/` exists later
(otherwise the regex has no match there, nor anywhere further right, and the
remainder is kept verbatim); `.*?` is non-greedy, so the span ends at the
first following `*/`. -/
def stripBlockAux : Bool → List Char → List Char
  | _, [] => []
  | true, [_] => []
  | true, c1 :: c2 :: rest =>
    if c1 = '*' ∧ c2 = '/' then stripBlockAux false rest
    else stripBlockAux true (c2 :: rest)
  | false, [c] => [c]
  | false, c1 :: c2 :: rest =>
    if c1 = '/' ∧ c2 = '*' then
      if hasSub ['*', '/'] rest then stripBlockAux true rest
      else c1 :: c2 :: rest
    else c1 :: stripBlockAux false (c2 :: rest)

/-- The block-comment pass on whole content. -/
def stripBlockComments (l : List Char) : List Char := stripBlockAux false l

/-- The comment stripping performed by `Detector._detect_js`
(`detector.py` lines 128-130): line comments first, then block comments. -/
def stripJs (l : List Char) : List Char :=
  stripBlockComments (stripLineComments l)

/-- True when the list starts with a decimal digit (the `(?!\d)` lookahead). -/
def digitHead : List Char → Bool
  | c :: _ => c.isDigit
  | [] => false

/-- Non-overlapping match count of the compiled default pattern
`\?\.(?!\d)` of feature `js-optional-chaining` (`detector.py` line 64;
the repository ships no `config/features.json`, so `_get_default_patterns`
is in force): `re.findall` scans left to right and resumes after each
match. -/
def countOptChain : List Char → Nat
  | '?' :: '.' :: rest =>
    if digitHead rest then countOptChain ('.' :: rest)
    else 1 + countOptChain rest
  | _ :: rest => countOptChain rest
  | [] => 0

/-- `Detector._detect_js` for one js-group rule (`detector.py` lines
124-148): the content is stripped of comments and the rule's match counter is
applied to the stripped text.  The regex engine itself is abstracted as the
counting function `count` (e.g. `countOptChain`). -/
def detectJs (count : List Char → Nat) (content : List Char) : Nat :=
  count (stripJs content)

/-- A raw browser entry of the WebStatus API response: a dict (with optional
`version`) or some other JSON value, kept as its string form
(`baseline_api.py` lines 148-153). -/
inductive BrowserInfo : Type
  | dict (version : Option String)
  | prim (s : String)
deriving DecidableEq

/-- A parsed feature JSON object as consumed by `_extract_status`
(`baseline_api.py` lines 135-162); every key may be absent (or null),
modelled as `none`. -/
structure FeatureJson : Type where
  id : Option String
  baseline_status : Option String
  baseline_date : Option String
  browsers : List (String × BrowserInfo)
  name : Option String
  description : Option String
deriving DecidableEq

/-- The normalized status dictionary built by `BaselineAPI`
(`baseline_api.py` lines 127-133 and 155-162).  `error` is `some _` exactly
on the synthetic fallback record, which is the only record carrying the
`"error"` key. -/
structure StatusRecord : Type where
  id : String
  baseline_status : String
  baseline_date : Option String
  browsers : List (String × String)
  name : String
  description : Option String
  error : Option String
deriving DecidableEq

/-- `BaselineAPI._extract_status` (`baseline_api.py` lines 135-162). -/
def extractStatus (d : FeatureJson) : StatusRecord :=
  { id := d.id.getD ""
    baseline_status := d.baseline_status.getD "limited"
    baseline_date := d.baseline_date
    browsers := d.browsers.map (fun p =>
      (p.1, match p.2 with
            | BrowserInfo.dict v => v.getD "unknown"
            | BrowserInfo.prim s => s))
    name := d.name.getD ""
    description := some (d.description.getD "")
    error := none }

/-- The synthetic default fallback record (`baseline_api.py` lines 127-133). -/
def syntheticRecord (feature_id : String) : StatusRecord :=
  { id := feature_id
    baseline_status := "limited"
    baseline_date := none
    browsers := []
    name := feature_id
    description := none
    error := some "Could not fetch status" }

/-- Outcome of one HTTP GET: a raised transport error (timeout, connection
failure, ...) or a response with a status code and — when `.json()` parses —
a body. -/
inductive FetchResult (α : Type) : Type
  | err
  | resp (status : Nat) (body : Option α)

/-- The remote service as seen by one `get_feature_status` call: the n-th GET
of the direct feature endpoint (`n = 1` is the single retry after a 429), and
the GET of the search fallback endpoint.  The search body is the `data`
array, `[]` when absent or empty. -/
structure Transport : Type where
  direct : Nat → FetchResult FeatureJson
  search : FetchResult (List FeatureJson)

/-- A transport in which every request raises: total network failure. -/
def errTransport : Transport :=
  { direct := fun _ => FetchResult.err, search := FetchResult.err }

/-- Continuation of the fetch after the direct response's status code is
known (`baseline_api.py` lines 81-109): 404 triggers the search fallback,
200 extracts the body, anything else is a logged failure.  Returns the
fetched record (`none` on any failure, including a `.json()` exception) and
the number of additional network requests issued. -/
def afterDirect (t : Transport) (s : Nat) (b : Option FeatureJson) :
    Option StatusRecord × Nat :=
  if s = 404 then
    match t.search with
    | FetchResult.err => (none, 1)
    | FetchResult.resp ss sb =>
      if ss = 200 then
        match sb with
        | some (d :: _) => (some (extractStatus d), 1)
        | _ => (none, 1)
      else (none, 1)
  else if s = 200 then
    match b with
    | some d => (some (extractStatus d), 0)
    | none => (none, 0)
  else (none, 0)

/-- The live-fetch phase of `get_feature_status` (`baseline_api.py` lines
62-116): direct GET, one retry after a 429, then `afterDirect`.  All raised
transport errors are caught and mapped to `none`.  Returns the fetched
record, if any, and the number of network requests issued. -/
def fetchPhase (t : Transport) : Option StatusRecord × Nat :=
  match t.direct 0 with
  | FetchResult.err => (none, 1)
  | FetchResult.resp s b =>
    if s = 429 then
      match t.direct 1 with
      | FetchResult.err => (none, 2)
      | FetchResult.resp s1 b1 =>
        ((afterDirect t s1 b1).1, 2 + (afterDirect t s1 b1).2)
    else
      ((afterDirect t s b).1, 1 + (afterDirect t s b).2)

/-- The client's cache: feature id to (record, fetch timestamp in seconds). -/
def CacheT : Type := List (String × StatusRecord × ℚ)

instance : DecidableEq CacheT := by
  unfold CacheT
  infer_instance

/-- `self._cache_duration = timedelta(hours=1)` in seconds
(`baseline_api.py` line 19). -/
def cacheDuration : ℚ := 3600

/-- Result of one `get_feature_status` call: the returned record, the cache
afterwards, and how many network requests were issued. -/
structure GetOut : Type where
  record : StatusRecord
  cache : CacheT
  netCalls : Nat
deriving DecidableEq

/-- The part of `get_feature_status` after the fresh-cache check
(`baseline_api.py` lines 61-133): live fetch, then the stale-cache fallback,
then the synthetic record. -/
def fetchOrFallback (t : Transport) (cache : CacheT) (now : ℚ)
    (feature_id : String) : GetOut :=
  match (fetchPhase t).1 with
  | some rec => ⟨rec, (feature_id, rec, now) :: cache, (fetchPhase t).2⟩
  | none =>
    match cache.lookup feature_id with
    | some (rec, _) => ⟨rec, cache, (fetchPhase t).2⟩
    | none => ⟨syntheticRecord feature_id, cache, (fetchPhase t).2⟩

/-- `BaselineAPI.get_feature_status` (`baseline_api.py` lines 45-133).
The function is total: every code path returns a record.  `now` is the value
of `datetime.now()` during the call (both cache checks and the cache write
happen within one call, modelled at one instant). -/
def getFeatureStatus (t : Transport) (cache : CacheT) (now : ℚ)
    (feature_id : String) : GetOut :=
  match cache.lookup feature_id with
  | some (rec, ts) =>
    if now - ts < cacheDuration then ⟨rec, cache, 0⟩
    else fetchOrFallback t cache now feature_id
  | none => fetchOrFallback t cache now feature_id

/-- The value found under `"status"` in a feature dict, with Python dict
semantics: the key may be absent, may hold `None` (null), or may hold a
status record. -/
inductive PyStatusField : Type
  | absent
  | null
  | record (s : AStatus)
deriving DecidableEq

/-- The classification read `data.get("status", {}).get("baseline_status",
"limited")` (`analyzer.py` lines 76-77) with full Python dict semantics:
when the `"status"` key is absent, `data.get` yields `{}` and the result is
`"limited"`; when the key holds `None`, `data.get` yields `None` and the
second `.get` raises `AttributeError` (`None` has no attribute `get`),
modelled as `Except.error`. -/
def classifyBaseline : PyStatusField → Except String String
  | PyStatusField.absent => Except.ok "limited"
  | PyStatusField.null => Except.error "AttributeError"
  | PyStatusField.record s => Except.ok (s.baseline_status.getD "limited")


theorem afterDirect_shape (t : Transport) (s : Nat) (b : Option FeatureJson) :
    (afterDirect t s b).1 = none
    ∨ ∃ d, (afterDirect t s b).1 = some (extractStatus d) := by
  unfold afterDirect
  by_cases h404 : s = 404
  · rw [if_pos h404]
    cases t.search with
    | err => exact Or.inl rfl
    | resp ss sb =>
      dsimp only
      by_cases h200 : ss = 200
      · rw [if_pos h200]
        match sb with
        | some (d :: _) => exact Or.inr ⟨d, rfl⟩
        | some [] => exact Or.inl rfl
        | none => exact Or.inl rfl
      · rw [if_neg h200]
        exact Or.inl rfl
  · rw [if_neg h404]
    by_cases h200 : s = 200
    · rw [if_pos h200]
      match b with
      | some d => exact Or.inr ⟨d, rfl⟩
      | none => exact Or.inl rfl
    · rw [if_neg h200]
      exact Or.inl rfl

theorem fetchPhase_shape (t : Transport) :
    (fetchPhase t).1 = none
    ∨ ∃ d, (fetchPhase t).1 = some (extractStatus d) := by
  unfold fetchPhase
  cases h0 : t.direct 0 with
  | err => exact Or.inl rfl
  | resp s b =>
    dsimp only
    by_cases h429 : s = 429
    · rw [if_pos h429]
      cases h1 : t.direct 1 with
      | err => exact Or.inl rfl
      | resp s1 b1 =>
        rcases afterDirect_shape t s1 b1 with h | ⟨d, h⟩
        · exact Or.inl h
        · exact Or.inr ⟨d, h⟩
    · rw [if_neg h429]
      rcases afterDirect_shape t s b with h | ⟨d, h⟩
      · exact Or.inl h
      · exact Or.inr ⟨d, h⟩

theorem fetchOrFallback_shape (t : Transport) (cache : CacheT) (now : ℚ)
    (fid : String) :
    (∃ rec ts, cache.lookup fid = some (rec, ts)
        ∧ (fetchOrFallback t cache now fid).record = rec)
    ∨ (∃ d, (fetchOrFallback t cache now fid).record = extractStatus d)
    ∨ (fetchOrFallback t cache now fid).record = syntheticRecord fid := by
  rcases fetchPhase_shape t with h | ⟨d, h⟩
  · cases hl : cache.lookup fid with
    | some p =>
      obtain ⟨rec, ts⟩ := p
      refine Or.inl ⟨rec, ts, rfl, ?_⟩
      unfold fetchOrFallback
      rw [h, hl]
    | none =>
      refine Or.inr (Or.inr ?_)
      unfold fetchOrFallback
      rw [h, hl]
  · refine Or.inr (Or.inl ⟨d, ?_⟩)
    unfold fetchOrFallback
    rw [h]

/-- C1.  `get_feature_status` never raises: the model is a total function,
and every call returns a best-effort record — a cache entry, a record
normalized from a live response, or the synthetic fallback.  Moreover, under
total network failure (a transport whose every request errors) and an empty
cache, the returned record carries the requested feature id, the error
marker, and baseline status `"limited"`. -/
theorem c1_status_client_never_fails :
    (∀ (t : Transport) (cache : CacheT) (now : ℚ) (fid : String),
        (∃ rec ts, cache.lookup fid = some (rec, ts)
            ∧ (getFeatureStatus t cache now fid).record = rec)
        ∨ (∃ d, (getFeatureStatus t cache now fid).record = extractStatus d)
        ∨ (getFeatureStatus t cache now fid).record = syntheticRecord fid)
    ∧ (∀ (now : ℚ) (fid : String),
        (getFeatureStatus errTransport [] now fid).record.id = fid
        ∧ (getFeatureStatus errTransport [] now fid).record.error
            = some "Could not fetch status"
        ∧ (getFeatureStatus errTransport [] now fid).record.baseline_status
            = "limited") := by
  constructor
  · intro t cache now fid
    have key : ∀ out : GetOut, getFeatureStatus t cache now fid = out →
        (∃ rec ts, cache.lookup fid = some (rec, ts) ∧ out.record = rec)
        ∨ (∃ d, out.record = extractStatus d)
        ∨ out.record = syntheticRecord fid := by
      intro out hout
      unfold getFeatureStatus at hout
      cases hl : cache.lookup fid with
      | some p =>
        obtain ⟨rec, ts⟩ := p
        rw [hl] at hout
        dsimp only at hout
        by_cases hf : now - ts < cacheDuration
        · rw [if_pos hf] at hout
          exact Or.inl ⟨rec, ts, rfl, by rw [← hout]⟩
        · rw [if_neg hf] at hout
          rw [← hout, ← hl]
          exact fetchOrFallback_shape t cache now fid
      | none =>
        rw [hl] at hout
        dsimp only at hout
        rw [← hout, ← hl]
        exact fetchOrFallback_shape t cache now fid
    exact key _ rfl
  · intro now fid
    exact ⟨rfl, rfl, rfl⟩

/-- C5.  On every failure path of the live fetch (raised transport error,
non-success HTTP status, or an empty search fallback — all the cases in which
`fetchPhase` yields no record), a cache entry for the feature id, however
old, is returned; the synthetic unknown record is returned exactly when no
cache entry exists at all for that id. -/
theorem c5_failure_cache_fallback :
    ∀ (t : Transport) (cache : CacheT) (now : ℚ) (fid : String),
      (fetchPhase t).1 = none →
      ((∀ rec ts, cache.lookup fid = some (rec, ts) →
          (getFeatureStatus t cache now fid).record = rec)
       ∧ (cache.lookup fid = none →
          (getFeatureStatus t cache now fid).record = syntheticRecord fid)) := by
  intro t cache now fid hfail
  constructor
  · intro rec ts hl
    unfold getFeatureStatus
    rw [hl]
    dsimp only
    by_cases hf : now - ts < cacheDuration
    · rw [if_pos hf]
    · rw [if_neg hf]
      unfold fetchOrFallback
      rw [hfail, hl]
  · intro hl
    unfold getFeatureStatus
    rw [hl]
    dsimp only
    unfold fetchOrFallback
    rw [hfail, hl]

/-- Witness for C5: with an always-erroring transport, a stale cache entry
(age 5000 s, beyond the 3600 s TTL) is still returned; with an empty cache
the synthetic record is returned. -/
theorem c5_failure_cache_fallback_witness :
    (fetchPhase errTransport).1 = none
    ∧ (getFeatureStatus errTransport [("f", syntheticRecord "g", 0)] 5000
        "f").record = syntheticRecord "g"
    ∧ (getFeatureStatus errTransport [] 5000 "f").record
        = syntheticRecord "f" :=
  ⟨rfl,
   (c5_failure_cache_fallback errTransport [("f", syntheticRecord "g", 0)]
      5000 "f" rfl).1 (syntheticRecord "g") 0 rfl,
   (c5_failure_cache_fallback errTransport [] 5000 "f" rfl).2 rfl⟩

/-- C8.  A fresh cache entry (age strictly below the one-hour TTL) is
returned as is, with no network request and an unchanged cache; consequently
a second lookup of the same id within the TTL window of the entry it sees
issues no network request either and leaves the cache unchanged. -/
theorem c8_fresh_cache_no_network :
    ∀ (t : Transport) (cache : CacheT) (now : ℚ) (fid : String)
      (rec : StatusRecord) (ts : ℚ),
      cache.lookup fid = some (rec, ts) → now - ts < cacheDuration →
      (getFeatureStatus t cache now fid = ⟨rec, cache, 0⟩
       ∧ ∀ (t2 : Transport) (now2 : ℚ) (rec2 : StatusRecord) (ts2 : ℚ),
           ((getFeatureStatus t cache now fid).cache).lookup fid
             = some (rec2, ts2) →
           now2 - ts2 < cacheDuration →
           getFeatureStatus t2 (getFeatureStatus t cache now fid).cache now2 fid
             = ⟨rec2, (getFeatureStatus t cache now fid).cache, 0⟩) := by
  have key : ∀ (t' : Transport) (c' : CacheT) (n' : ℚ) (fid' : String)
      (r' : StatusRecord) (ts' : ℚ),
      c'.lookup fid' = some (r', ts') → n' - ts' < cacheDuration →
      getFeatureStatus t' c' n' fid' = ⟨r', c', 0⟩ := by
    intro t' c' n' fid' r' ts' hl hf
    unfold getFeatureStatus
    rw [hl]
    dsimp only
    rw [if_pos hf]
  intro t cache now fid rec ts hl hf
  refine ⟨key t cache now fid rec ts hl hf, ?_⟩
  intro t2 now2 rec2 ts2 hl2 hf2
  exact key t2 _ now2 fid rec2 ts2 hl2 hf2

/-- Witness for C8: a cache entry of age 50 s is fresh, so the lookup
returns it with zero network requests and an unchanged cache. -/
theorem c8_fresh_cache_no_network_witness :
    getFeatureStatus errTransport [("f", syntheticRecord "f", 0)] 50 "f"
      = ⟨syntheticRecord "f", [("f", syntheticRecord "f", 0)], 0⟩ :=
  (c8_fresh_cache_no_network errTransport [("f", syntheticRecord "f", 0)]
    50 "f" (syntheticRecord "f") 0 rfl
    (by norm_num [cacheDuration])).1

theorem countP_partition {α : Type} (p q : α → Bool)
    (h : ∀ x, p x = true → q x = false) :
    ∀ l : List α,
      l.countP p + l.countP q
        + l.countP (fun x => !(p x) && !(q x)) = l.length := by
  intro l
  induction l with
  | nil => rfl
  | cons x xs ih =>
    simp only [List.countP_cons, List.length_cons]
    cases hp : p x with
    | true =>
      have hq : q x = false := h x hp
      simp [hp, hq]
      omega
    | false =>
      cases hq : q x with
      | true =>
        simp [hp, hq]
        omega
      | false =>
        simp [hp, hq]
        omega

theorem widely_newly_exclusive (x : String × FeatureData) :
    (baselineOf x.2 == "widely") = true → (baselineOf x.2 == "newly") = false := by
  intro h
  have h' : baselineOf x.2 = "widely" := by
    exact eq_of_beq h
  rw [h']
  rfl

/-- The three classification buckets of `analyze` partition the feature map:
their counts sum to the number of features. -/
theorem analyze_counts_length (features : List (String × FeatureData)) :
    features.countP (fun p => baselineOf p.2 == "widely")
      + features.countP (fun p => baselineOf p.2 == "newly")
      + features.countP (fun p =>
          !(baselineOf p.2 == "widely") && !(baselineOf p.2 == "newly"))
      = features.length :=
  countP_partition _ _ widely_newly_exclusive features

/-- C2.  For every input feature map, the global score lies in [0, 100]; the
empty feature map yields exactly 100, coverage 100 for each of the four
browsers, and an empty top-risk list. -/
theorem c2_global_score_bounds :
    (∀ features : List (String × FeatureData),
        0 ≤ (analyze features).global_score
        ∧ (analyze features).global_score ≤ 100)
    ∧ (analyze []).global_score = 100
    ∧ (analyze []).browser_coverage
        = [("chrome", 100), ("firefox", 100), ("safari", 100), ("edge", 100)]
    ∧ (analyze []).top_risks = [] := by
  refine ⟨?_, rfl, rfl, rfl⟩
  intro features
  by_cases he : features.isEmpty
  · simp only [analyze, he, if_true]
    constructor
    · norm_num [emptyMetrics]
    · norm_num [emptyMetrics]
  · have he' : features.isEmpty = false := by
      simpa using he
    simp only [analyze, he', Bool.false_eq_true, if_false]
    set w := features.countP (fun p => baselineOf p.2 == "widely") with hw
    set n := features.countP (fun p => baselineOf p.2 == "newly") with hn
    set lim := features.countP (fun p =>
      !(baselineOf p.2 == "widely") && !(baselineOf p.2 == "newly")) with hlim
    by_cases ht : 0 < w + n + lim
    · simp only [ht, if_true]
      have hden : (0 : ℚ) < ((w + n + lim : ℕ) : ℚ) := by
        exact_mod_cast ht
      have hnum0 : (0 : ℚ) ≤ (w : ℚ) * 1 + (n : ℚ) * (1/2) := by positivity
      have hnum : (w : ℚ) * 1 + (n : ℚ) * (1/2) ≤ ((w + n + lim : ℕ) : ℚ) := by
        push_cast
        have h1 : (0 : ℚ) ≤ (n : ℚ) := by positivity
        have h2 : (0 : ℚ) ≤ (lim : ℚ) := by positivity
        linarith
      have hbase0 : (0 : ℚ) ≤
          ((w : ℚ) * 1 + (n : ℚ) * (1/2)) / ((w + n + lim : ℕ) : ℚ) * 100 := by
        positivity
      have hbase1 : ((w : ℚ) * 1 + (n : ℚ) * (1/2)) / ((w + n + lim : ℕ) : ℚ) * 100
          ≤ 100 := by
        have hq : ((w : ℚ) * 1 + (n : ℚ) * (1/2)) / ((w + n + lim : ℕ) : ℚ) ≤ 1 :=
          (div_le_one hden).mpr hnum
        nlinarith
      exact ⟨round1_nonneg hbase0, round1_le_100 hbase1⟩
    · simp only [ht, if_false]
      constructor
      · exact round1_nonneg le_rfl
      · exact round1_le_100 (by norm_num)

theorem riskLE_trans (a b c : Risk) :
    riskLE a b = true → riskLE b c = true → riskLE a c = true := by
  simp only [riskLE, decide_eq_true_eq]
  omega

theorem riskLE_total (a b : Risk) : riskLE a b = true ∨ riskLE b a = true := by
  simp only [riskLE, decide_eq_true_eq]
  omega

theorem riskLE_refl (a : Risk) : riskLE a a = true := by
  simp [riskLE]

/-- C3.  The analyzer's risk sort places a limited-tagged candidate before a
newly-tagged one regardless of hit counts, and among candidates with equal
tag it places the one with strictly more hits first and, at equal hits, the
one with strictly more distinct files first. -/
theorem c3_risk_sort_order :
    ∀ (features : List (String × FeatureData)) (a b : Risk),
      a ∈ riskCandidates features → b ∈ riskCandidates features →
      ((a.2.2.2 = "limited" ∧ b.2.2.2 = "newly")
       ∨ (a.2.2.2 = b.2.2.2
           ∧ (b.2.1 < a.2.1 ∨ (a.2.1 = b.2.1 ∧ b.2.2.1 < a.2.2.1)))) →
      List.Sublist [a, b] (sortRisks (riskCandidates features)) := by
  intro features a b ha hb hstrict
  refine pair_sublist_of_pairwise riskLE riskLE_refl _ a b
    (pairwise_sortLe riskLE riskLE_trans riskLE_total _)
    ((mem_sortLe riskLE a _).mpr ha) ((mem_sortLe riskLE b _).mpr hb) ?_
  rcases hstrict with ⟨hA, hB⟩ | ⟨heq, h2⟩
  · simp only [riskLE, riskRank, hA, hB]
    simp
  · simp only [riskLE, heq, decide_eq_false_iff_not]
    omega

/-- Witness for C3: a limited candidate with 0 hits sorts before a newly
candidate with 99 hits. -/
theorem c3_risk_sort_order_witness :
    List.Sublist [(("y", 0, 0, "limited") : Risk), (("x", 99, 0, "newly") : Risk)]
      (sortRisks (riskCandidates
        [("x", ⟨some ⟨some "newly", [], none⟩, 99, []⟩),
         ("y", ⟨some ⟨some "limited", [], none⟩, 0, []⟩)])) :=
  c3_risk_sort_order
    [("x", ⟨some ⟨some "newly", [], none⟩, 99, []⟩),
     ("y", ⟨some ⟨some "limited", [], none⟩, 0, []⟩)]
    ("y", 0, 0, "limited") ("x", 99, 0, "newly")
    (by decide) (by decide) (Or.inl ⟨rfl, rfl⟩)

/-- C4.  For a non-empty feature map the returned global score is exactly
`round((widely_count * 1.0 + newly_count * 0.5) / total_features * 100, 1)`,
and `total_features` is the number of features in the map. -/
theorem c4_global_score_formula :
    ∀ features : List (String × FeatureData), features ≠ [] →
      ((analyze features).global_score
        = round1 ((((analyze features).widely_count : ℚ) * 1
            + ((analyze features).newly_count : ℚ) * (1/2))
            / (features.length : ℚ) * 100)
       ∧ (analyze features).total_features = features.length) := by
  intro features hne
  have he' : features.isEmpty = false := by
    cases features with
    | nil => exact absurd rfl hne
    | cons p t => rfl
  have hlen : 0 < features.length := by
    cases features with
    | nil => exact absurd rfl hne
    | cons p t => simp
  simp only [analyze, he', Bool.false_eq_true, if_false]
  have htot := analyze_counts_length features
  constructor
  · rw [htot]
    rw [if_pos hlen]
  · exact htot

/-- Witness for C4: a single widely-supported feature scores exactly 100. -/
theorem c4_global_score_formula_witness :
    (analyze [("a", ⟨some ⟨some "widely", [], none⟩, 1, []⟩)]).global_score
      = round1
        ((((analyze [("a", ⟨some ⟨some "widely", [], none⟩, 1, []⟩)]).widely_count : ℚ) * 1
          + ((analyze [("a", ⟨some ⟨some "widely", [], none⟩, 1, []⟩)]).newly_count : ℚ)
            * (1/2))
          / (([("a", (⟨some ⟨some "widely", [], none⟩, 1, []⟩ : FeatureData))].length : ℚ))
          * 100) :=
  (c4_global_score_formula [("a", ⟨some ⟨some "widely", [], none⟩, 1, []⟩)]
    (by simp)).1

theorem mem_riskCandidates {features : List (String × FeatureData)} {r : Risk}
    (h : r ∈ riskCandidates features) :
    ∃ d, (r.1, d) ∈ features ∧ baselineOf d ≠ "widely" := by
  rcases List.mem_filterMap.mp h with ⟨p, hp, he⟩
  by_cases hw : baselineOf p.2 = "widely"
  · rw [if_pos hw] at he
    cases he
  · rw [if_neg hw] at he
    by_cases hnw : baselineOf p.2 = "newly"
    · rw [if_pos hnw] at he
      cases he
      exact ⟨p.2, by simpa using hp, hw⟩
    · rw [if_neg hnw] at he
      cases he
      exact ⟨p.2, by simpa using hp, hw⟩

theorem lookup_unique_of_nodup_keys {α β : Type} :
    ∀ (l : List (α × β)), (l.map Prod.fst).Nodup →
      ∀ (k : α) (v v' : β), (k, v) ∈ l → (k, v') ∈ l → v = v' := by
  intro l
  induction l with
  | nil => intro _ k v v' hv; cases hv
  | cons p t ih =>
    intro hnd k v v' hv hv'
    rw [List.map_cons, List.nodup_cons] at hnd
    obtain ⟨hhead, htail⟩ := hnd
    rcases List.mem_cons.mp hv with he | hv
    · rcases List.mem_cons.mp hv' with he' | hv'
      · exact congrArg Prod.snd (he.trans he'.symm)
      · exfalso
        apply hhead
        have hk : p.1 = k := by
          rw [← he]
        rw [hk]
        exact List.mem_map.mpr ⟨(k, v'), hv', rfl⟩
    · rcases List.mem_cons.mp hv' with he' | hv'
      · exfalso
        apply hhead
        have hk : p.1 = k := by
          rw [← he']
        rw [hk]
        exact List.mem_map.mpr ⟨(k, v), hv, rfl⟩
      · exact ih htail k v v' hv hv'

/-- C9.  `top_risks` has at most five entries and never names a feature
whose baseline status is `widely`: every listed id comes from a non-widely
feature of the map, and under the (always true for a Python dict) assumption
that the feature ids are distinct, no feature data bound to a listed id is
widely. -/
theorem c9_top_risks_bound :
    ∀ features : List (String × FeatureData),
      ((analyze features).top_risks.length ≤ 5
       ∧ (∀ fid ∈ (analyze features).top_risks,
            ∃ d, (fid, d) ∈ features ∧ baselineOf d ≠ "widely")
       ∧ ((features.map Prod.fst).Nodup →
           ∀ fid d, fid ∈ (analyze features).top_risks → (fid, d) ∈ features →
             baselineOf d ≠ "widely")) := by
  intro features
  have hmem : ∀ fid ∈ (analyze features).top_risks,
      ∃ d, (fid, d) ∈ features ∧ baselineOf d ≠ "widely" := by
    intro fid hfid
    by_cases he : features.isEmpty
    · simp only [analyze, he, if_true, emptyMetrics] at hfid
      cases hfid
    · have he' : features.isEmpty = false := by simpa using he
      simp only [analyze, he', Bool.false_eq_true, if_false] at hfid
      rcases List.mem_map.mp hfid with ⟨r, hr, hfst⟩
      have hr' : r ∈ sortRisks (riskCandidates features) :=
        List.mem_of_mem_take hr
      have hr'' : r ∈ riskCandidates features :=
        (mem_sortLe riskLE r _).mp hr'
      obtain ⟨d, hd, hw⟩ := mem_riskCandidates hr''
      exact ⟨d, by rw [← hfst]; exact hd, hw⟩
  refine ⟨?_, hmem, ?_⟩
  · by_cases he : features.isEmpty
    · simp [analyze, he, emptyMetrics]
    · have he' : features.isEmpty = false := by simpa using he
      simp only [analyze, he', Bool.false_eq_true, if_false]
      calc (((sortRisks (riskCandidates features)).take 5).map
              (fun r => r.1)).length
          = ((sortRisks (riskCandidates features)).take 5).length :=
            List.length_map _ _
        _ ≤ 5 := List.length_take_le 5 _
  · intro hnd fid d hfid hd
    obtain ⟨d', hd', hw'⟩ := hmem fid hfid
    have : d = d' := lookup_unique_of_nodup_keys features hnd fid d d' hd hd'
    rw [this]
    exact hw'

/-- Witness for C9: a two-feature map with distinct keys, one widely and one
limited feature; `top_risks` is `["b"]`, and the theorem's no-dup branch
applies to it. -/
theorem c9_top_risks_bound_witness :
    (analyze [("a", ⟨some ⟨some "widely", [], none⟩, 1, []⟩),
              ("b", ⟨some ⟨some "limited", [], none⟩, 2, []⟩)]).top_risks.length ≤ 5
    ∧ baselineOf (⟨some ⟨some "limited", [], none⟩, 2, []⟩ : FeatureData)
        ≠ "widely" :=
  ⟨(c9_top_risks_bound
      [("a", ⟨some ⟨some "widely", [], none⟩, 1, []⟩),
       ("b", ⟨some ⟨some "limited", [], none⟩, 2, []⟩)]).1,
   (c9_top_risks_bound
      [("a", ⟨some ⟨some "widely", [], none⟩, 1, []⟩),
       ("b", ⟨some ⟨some "limited", [], none⟩, 2, []⟩)]).2.2
     (by decide) "b" (⟨some ⟨some "limited", [], none⟩, 2, []⟩ : FeatureData)
     (by decide) (by decide)⟩

/-- C10 counterexample (the "null" part of the claim): a feature whose
`"status"` key holds `None` is not classified into the limited bucket — the
classification read raises `AttributeError` instead. -/
theorem c10_null_status_counterexample :
    classifyBaseline PyStatusField.null ≠ Except.ok "limited"
    ∧ classifyBaseline PyStatusField.null = Except.error "AttributeError" :=
  ⟨fun h => Except.noConfusion h, rfl⟩

/-- C10 as amended.  A feature whose status is missing, or whose
baseline_status is absent or any value other than "widely"/"newly"
(including unrecognized strings), is classified into the limited bucket:
`limited_count` counts exactly those features and each of them becomes a
risk candidate tagged "limited".  A feature whose status value is null
(`None`) is not classified at all: the classification read raises
`AttributeError`. -/
theorem c10_limited_bucket_amended :
    (∀ features : List (String × FeatureData),
        (analyze features).limited_count
          = features.countP (fun p =>
              !(baselineOf p.2 == "widely") && !(baselineOf p.2 == "newly")))
    ∧ (∀ (features : List (String × FeatureData)) (fid : String)
        (d : FeatureData),
        (fid, d) ∈ features → baselineOf d ≠ "widely" →
        baselineOf d ≠ "newly" →
        (fid, d.total_hits, d.files.length, "limited")
          ∈ riskCandidates features)
    ∧ classifyBaseline PyStatusField.null = Except.error "AttributeError" := by
  refine ⟨?_, ?_, rfl⟩
  · intro features
    cases features with
    | nil => rfl
    | cons p t => rfl
  · intro features fid d hmem hw hn
    refine List.mem_filterMap.mpr ⟨(fid, d), hmem, ?_⟩
    rw [if_neg hw, if_neg hn]

/-- Witness for C10: a feature with the unrecognized baseline status
"experimental" becomes a limited-tagged risk candidate. -/
theorem c10_limited_bucket_amended_witness :
    (("weird", 3, 1, "limited") : Risk) ∈ riskCandidates
      [("weird", ⟨some ⟨some "experimental", [], none⟩, 3, [("f", 3)]⟩)] :=
  c10_limited_bucket_amended.2.1
    [("weird", ⟨some ⟨some "experimental", [], none⟩, 3, [("f", 3)]⟩)]
    "weird" (⟨some ⟨some "experimental", [], none⟩, 3, [("f", 3)]⟩ : FeatureData)
    (by decide) (by decide) (by decide)

theorem fmtLe_trans (a b c : FeatureEntry) :
    fmtLe a b = true → fmtLe b c = true → fmtLe a c = true := by
  simp only [fmtLe, decide_eq_true_eq]
  omega

theorem fmtLe_total (a b : FeatureEntry) : fmtLe a b = true ∨ fmtLe b a = true := by
  simp only [fmtLe, decide_eq_true_eq]
  omega

theorem fmtLe_refl (a : FeatureEntry) : fmtLe a a = true := by
  simp [fmtLe]

/-- The risk tuple that the analyzer's classification loop appends for a
non-widely feature (`analyzer.py` lines 84-97). -/
def riskOf (fid : String) (d : FeatureData) : Risk :=
  (fid, d.total_hits, d.files.length,
   if baselineOf d = "newly" then "newly" else "limited")

theorem riskOf_mem {features : List (String × FeatureData)} {fid : String}
    {d : FeatureData} (h : (fid, d) ∈ features)
    (hw : baselineOf d ≠ "widely") : riskOf fid d ∈ riskCandidates features := by
  refine List.mem_filterMap.mpr ⟨(fid, d), h, ?_⟩
  by_cases hn : baselineOf d = "newly"
  · rw [if_neg hw, if_pos hn]
    simp [riskOf, hn]
  · rw [if_neg hw, if_neg hn]
    simp [riskOf, hn]

/-- C7 counterexample.  Two limited features with equal total hits but
different file counts: `format_report` keeps them in map order (its sort key
ignores file counts), while the analyzer's risk sort puts the two-file
feature first.  The orderings of this pair disagree, refuting the claim as
stated. -/
theorem c7_report_order_counterexample :
    ((formatReport
        [("a", ⟨some ⟨some "limited", [], none⟩, 2, [("f", 2)]⟩),
         ("b", ⟨some ⟨some "limited", [], none⟩, 2, [("g", 1), ("h", 1)]⟩)]
        (analyze
          [("a", ⟨some ⟨some "limited", [], none⟩, 2, [("f", 2)]⟩),
           ("b", ⟨some ⟨some "limited", [], none⟩, 2, [("g", 1), ("h", 1)]⟩)])
        2 "t").features.map (fun e => e.id)) = ["a", "b"]
    ∧ ((sortRisks (riskCandidates
        [("a", ⟨some ⟨some "limited", [], none⟩, 2, [("f", 2)]⟩),
         ("b", ⟨some ⟨some "limited", [], none⟩, 2, [("g", 1), ("h", 1)]⟩)])).map
        (fun r => r.1)) = ["b", "a"] :=
  ⟨rfl, rfl⟩

/-- C7 as amended.  `format_report` sorts the feature list by (limited <
newly < widely, then descending total hits); this agrees with the Analyzer's
risk ordering for any two risk candidates that differ in status priority or
in total hit count, but `format_report` does not apply the analyzer's
distinct-file-count tiebreak, so two risks with equal status and equal hits
may appear in either order relative to the analyzer's ranking. -/
theorem c7_report_sort_amended :
    (∀ (features : List (String × FeatureData)) (metrics : Metrics)
        (fc : Nat) (ts : String),
        ((formatReport features metrics fc ts).features).Pairwise
          (fun a b => rank3 a.status ≤ rank3 b.status
            ∧ (rank3 a.status = rank3 b.status → b.total_hits ≤ a.total_hits)))
    ∧ (∀ (features : List (String × FeatureData)) (metrics : Metrics)
        (fc : Nat) (ts : String) (fid1 fid2 : String) (d1 d2 : FeatureData),
        (fid1, d1) ∈ features → (fid2, d2) ∈ features →
        (baselineOf d1 = "limited" ∨ baselineOf d1 = "newly") →
        (baselineOf d2 = "limited" ∨ baselineOf d2 = "newly") →
        (rank3 (baselineOf d1) < rank3 (baselineOf d2)
         ∨ (rank3 (baselineOf d1) = rank3 (baselineOf d2)
             ∧ d2.total_hits < d1.total_hits)) →
        (List.Sublist [mkEntry fid1 d1, mkEntry fid2 d2]
            (formatReport features metrics fc ts).features
         ∧ List.Sublist [riskOf fid1 d1, riskOf fid2 d2]
            (sortRisks (riskCandidates features)))) := by
  constructor
  · intro features metrics fc ts
    have hfe : (formatReport features metrics fc ts).features
        = sortLe fmtLe (features.map (fun p => mkEntry p.1 p.2)) := rfl
    rw [hfe]
    refine List.Pairwise.imp ?_
      (pairwise_sortLe fmtLe fmtLe_trans fmtLe_total
        (features.map (fun p => mkEntry p.1 p.2)))
    intro a b hab
    simp only [fmtLe, decide_eq_true_eq] at hab
    omega
  · intro features metrics fc ts fid1 fid2 d1 d2 h1 h2 hs1 hs2 hstrict
    have hstat1 : (mkEntry fid1 d1).status = baselineOf d1 := rfl
    have hstat2 : (mkEntry fid2 d2).status = baselineOf d2 := rfl
    have hw1 : baselineOf d1 ≠ "widely" := by
      rcases hs1 with h | h <;> rw [h] <;> decide
    have hw2 : baselineOf d2 ≠ "widely" := by
      rcases hs2 with h | h <;> rw [h] <;> decide
    have hr1 : riskRank (riskOf fid1 d1).2.2.2 = rank3 (baselineOf d1) := by
      rcases hs1 with h | h <;> simp [riskOf, riskRank, rank3, h]
    have hr2 : riskRank (riskOf fid2 d2).2.2.2 = rank3 (baselineOf d2) := by
      rcases hs2 with h | h <;> simp [riskOf, riskRank, rank3, h]
    constructor
    · refine pair_sublist_of_pairwise fmtLe fmtLe_refl _ _ _
        (pairwise_sortLe fmtLe fmtLe_trans fmtLe_total _)
        ((mem_sortLe fmtLe _ _).mpr
          (List.mem_map.mpr ⟨(fid1, d1), h1, rfl⟩))
        ((mem_sortLe fmtLe _ _).mpr
          (List.mem_map.mpr ⟨(fid2, d2), h2, rfl⟩)) ?_
      have hmh1 : (mkEntry fid1 d1).total_hits = d1.total_hits := rfl
      have hmh2 : (mkEntry fid2 d2).total_hits = d2.total_hits := rfl
      simp only [fmtLe, decide_eq_false_iff_not, hstat1, hstat2, hmh1, hmh2]
      omega
    · refine pair_sublist_of_pairwise riskLE riskLE_refl _ _ _
        (pairwise_sortLe riskLE riskLE_trans riskLE_total _)
        ((mem_sortLe riskLE _ _).mpr (riskOf_mem h1 hw1))
        ((mem_sortLe riskLE _ _).mpr (riskOf_mem h2 hw2)) ?_
      simp only [riskLE, decide_eq_false_iff_not, hr1, hr2]
      have hh1 : (riskOf fid1 d1).2.1 = d1.total_hits := rfl
      have hh2 : (riskOf fid2 d2).2.1 = d2.total_hits := rfl
      rw [hh1, hh2]
      omega

/-- Witness for C7 as amended: a limited feature with 5 hits precedes a
limited feature with 1 hit both in the report's feature list and in the
analyzer's risk ranking. -/
theorem c7_report_sort_amended_witness :
    List.Sublist
      [mkEntry "p" ⟨some ⟨some "limited", [], none⟩, 5, []⟩,
       mkEntry "q" ⟨some ⟨some "limited", [], none⟩, 1, []⟩]
      (formatReport
        [("q", ⟨some ⟨some "limited", [], none⟩, 1, []⟩),
         ("p", ⟨some ⟨some "limited", [], none⟩, 5, []⟩)]
        emptyMetrics 0 "t").features
    ∧ List.Sublist
      [riskOf "p" ⟨some ⟨some "limited", [], none⟩, 5, []⟩,
       riskOf "q" ⟨some ⟨some "limited", [], none⟩, 1, []⟩]
      (sortRisks (riskCandidates
        [("q", ⟨some ⟨some "limited", [], none⟩, 1, []⟩),
         ("p", ⟨some ⟨some "limited", [], none⟩, 5, []⟩)])) :=
  c7_report_sort_amended.2
    [("q", ⟨some ⟨some "limited", [], none⟩, 1, []⟩),
     ("p", ⟨some ⟨some "limited", [], none⟩, 5, []⟩)]
    emptyMetrics 0 "t" "p" "q"
    ⟨some ⟨some "limited", [], none⟩, 5, []⟩
    ⟨some ⟨some "limited", [], none⟩, 1, []⟩
    (by decide) (by decide) (Or.inl rfl) (Or.inl rfl)
    (Or.inr ⟨rfl, by decide⟩)

theorem hasSub_cons_false {p : List Char} {c : Char} {l : List Char}
    (h : hasSub p (c :: l) = false) : hasSub p l = false := by
  simp only [hasSub, Bool.or_eq_false_iff] at h
  exact h.2

theorem hasSub_append_close (x w : List Char) :
    hasSub ['*', '/'] (x ++ '*' :: '/' :: w) = true := by
  induction x with
  | nil =>
    simp [hasSub, List.isPrefixOf]
  | cons c x' ih =>
    simp only [List.cons_append, hasSub, List.append_eq, ih, Bool.or_true]

theorem stripLineAux_true_append {v : List Char} (hv : '\n' ∉ v)
    (w : List Char) : stripLineAux true (v ++ w) = stripLineAux true w := by
  induction v with
  | nil => rfl
  | cons c v' ih =>
    have hc : ¬(c = '\n') := fun h => hv (h ▸ List.mem_cons_self c v')
    have hv' : '\n' ∉ v' := fun h => hv (List.mem_cons_of_mem c h)
    simp only [List.cons_append, stripLineAux, hc, if_false]
    exact ih hv'

theorem stripLineAux_comment_insens :
    ∀ (n : Nat) (u : List Char) (s : Bool) (v v2 w : List Char),
      u.length ≤ n → '\n' ∉ v → '\n' ∉ v2 →
      stripLineAux s (u ++ '/' :: '/' :: (v ++ w))
        = stripLineAux s (u ++ '/' :: '/' :: (v2 ++ w)) := by
  intro n
  induction n with
  | zero =>
    intro u s v v2 w hu hv hv2
    have hu0 : u = [] := by
      cases u with
      | nil => rfl
      | cons c t => simp at hu
    subst hu0
    cases s with
    | true =>
      have hv' : '\n' ∉ ('/' :: '/' :: v) := by simp [hv]
      have hv2' : '\n' ∉ ('/' :: '/' :: v2) := by simp [hv2]
      calc stripLineAux true ([] ++ '/' :: '/' :: (v ++ w))
          = stripLineAux true (('/' :: '/' :: v) ++ w) := by simp
        _ = stripLineAux true w := stripLineAux_true_append hv' w
        _ = stripLineAux true (('/' :: '/' :: v2) ++ w) :=
            (stripLineAux_true_append hv2' w).symm
        _ = stripLineAux true ([] ++ '/' :: '/' :: (v2 ++ w)) := by simp
    | false =>
      simp only [List.nil_append, stripLineAux]
      rw [stripLineAux_true_append hv w, stripLineAux_true_append hv2 w]
      simp
  | succ n ih =>
    intro u s v v2 w hu hv hv2
    cases u with
    | nil => exact ih [] s v v2 w (by simp) hv hv2
    | cons c u' =>
      have hu' : u'.length ≤ n := by
        simp at hu
        omega
      cases s with
      | true =>
        simp only [List.cons_append, stripLineAux, List.append_eq]
        by_cases hc : c = '\n'
        · rw [if_pos hc, if_pos hc]
          rw [ih u' false v v2 w hu' hv hv2]
        · rw [if_neg hc, if_neg hc]
          exact ih u' true v v2 w hu' hv hv2
      | false =>
        cases u' with
        | nil =>
          by_cases hc : c = '/'
          · simp only [List.cons_append, List.nil_append, stripLineAux, hc]
            have hv' : '\n' ∉ ('/' :: v) := by simp [hv]
            have hv2' : '\n' ∉ ('/' :: v2) := by simp [hv2]
            have e1 : stripLineAux true ('/' :: (v ++ w))
                = stripLineAux true w := stripLineAux_true_append hv' w
            have e2 : stripLineAux true ('/' :: (v2 ++ w))
                = stripLineAux true w := stripLineAux_true_append hv2' w
            simp [stripLineAux, e1, e2]
            rw [stripLineAux_true_append hv w, stripLineAux_true_append hv2 w]
          · simp only [List.cons_append, List.nil_append, stripLineAux]
            rw [stripLineAux_true_append hv w, stripLineAux_true_append hv2 w]
            simp [hc]
        | cons d u'' =>
          have hu'' : u''.length ≤ n := by
            simp at hu
            omega
          simp only [List.cons_append, stripLineAux, List.append_eq]
          by_cases hcd : c = '/' ∧ d = '/'
          · rw [if_pos hcd, if_pos hcd]
            exact ih u'' true v v2 w hu'' hv hv2
          · rw [if_neg hcd, if_neg hcd]
            have h2 := ih (d :: u'') false v v2 w (by simpa using hu') hv hv2
            simp only [List.cons_append, List.append_eq] at h2
            rw [h2]

theorem stripBlockAux_true_skip :
    ∀ (x w : List Char), hasSub ['*', '/'] x = false →
      stripBlockAux true (x ++ '*' :: '/' :: w) = stripBlockAux false w := by
  intro x
  induction x with
  | nil =>
    intro w hx
    simp [stripBlockAux]
  | cons c x' ih =>
    intro w hx
    cases x' with
    | nil =>
      have hns : ¬(c = '*' ∧ ('*' : Char) = '/') := fun h => by cases h.2
      simp only [List.cons_append, List.nil_append, stripBlockAux]
      rw [if_neg hns]
      simp [stripBlockAux]
    | cons d x'' =>
      by_cases hcd : c = '*' ∧ d = '/'
      · exfalso
        obtain ⟨hc, hd⟩ := hcd
        subst hc
        subst hd
        have hpre : (['*', '/'].isPrefixOf ('*' :: '/' :: x'')
            || hasSub ['*', '/'] ('/' :: x'')) = false := hx
        simp [List.isPrefixOf] at hpre
      · simp only [List.cons_append, stripBlockAux, List.append_eq]
        rw [if_neg hcd]
        have h2 := ih w (hasSub_cons_false hx)
        simp only [List.cons_append] at h2
        exact h2

theorem stripBlockAux_comment_insens :
    ∀ (n : Nat) (u v v2 w : List Char), u.length ≤ n →
      hasSub ['*', '/'] (u ++ '/' :: '*' :: v) = false →
      hasSub ['*', '/'] (u ++ '/' :: '*' :: v2) = false →
      stripBlockAux false (u ++ '/' :: '*' :: (v ++ '*' :: '/' :: w))
        = stripBlockAux false (u ++ '/' :: '*' :: (v2 ++ '*' :: '/' :: w)) := by
  intro n
  induction n with
  | zero =>
    intro u v v2 w hu hv hv2
    have hu0 : u = [] := by
      cases u with
      | nil => rfl
      | cons c t => simp at hu
    subst hu0
    simp only [List.nil_append] at hv hv2 ⊢
    have hv' : hasSub ['*', '/'] v = false :=
      hasSub_cons_false (hasSub_cons_false hv)
    have hv2' : hasSub ['*', '/'] v2 = false :=
      hasSub_cons_false (hasSub_cons_false hv2)
    simp only [stripBlockAux]
    rw [hasSub_append_close v w, hasSub_append_close v2 w]
    simp only [true_and, and_self, if_true, eq_self_iff_true]
    rw [stripBlockAux_true_skip v w hv', stripBlockAux_true_skip v2 w hv2']
  | succ n ih =>
    intro u v v2 w hu hv hv2
    cases u with
    | nil => exact ih [] v v2 w (by simp) hv hv2
    | cons c u' =>
      cases u' with
      | nil =>
        simp only [List.cons_append, List.nil_append] at hv hv2 ⊢
        have hv' : hasSub ['*', '/'] v = false :=
          hasSub_cons_false (hasSub_cons_false (hasSub_cons_false hv))
        have hv2' : hasSub ['*', '/'] v2 = false :=
          hasSub_cons_false (hasSub_cons_false (hasSub_cons_false hv2))
        simp only [stripBlockAux]
        rw [hasSub_append_close v w, hasSub_append_close v2 w]
        simp
        rw [stripBlockAux_true_skip v w hv', stripBlockAux_true_skip v2 w hv2']
      | cons d u'' =>
        have hud : (d :: u'').length ≤ n := by
          simp at hu ⊢
          omega
        simp only [List.cons_append, stripBlockAux, List.append_eq]
        by_cases hcd : c = '/' ∧ d = '*'
        · rw [if_pos hcd, if_pos hcd]
          have hterm1 : hasSub ['*', '/']
              (u'' ++ '/' :: '*' :: (v ++ '*' :: '/' :: w)) = true := by
            have hb := hasSub_append_close (u'' ++ '/' :: '*' :: v) w
            simpa [List.append_assoc] using hb
          have hterm2 : hasSub ['*', '/']
              (u'' ++ '/' :: '*' :: (v2 ++ '*' :: '/' :: w)) = true := by
            have hb := hasSub_append_close (u'' ++ '/' :: '*' :: v2) w
            simpa [List.append_assoc] using hb
          rw [hterm1, hterm2]
          simp only [if_true, eq_self_iff_true]
          have hx1 : hasSub ['*', '/'] (u'' ++ '/' :: '*' :: v) = false :=
            hasSub_cons_false (hasSub_cons_false hv)
          have hx2 : hasSub ['*', '/'] (u'' ++ '/' :: '*' :: v2) = false :=
            hasSub_cons_false (hasSub_cons_false hv2)
          have e1 := stripBlockAux_true_skip (u'' ++ '/' :: '*' :: v) w hx1
          have e2 := stripBlockAux_true_skip (u'' ++ '/' :: '*' :: v2) w hx2
          simp only [List.append_assoc, List.cons_append] at e1 e2
          rw [e1, e2]
        · rw [if_neg hcd, if_neg hcd]
          have h2 := ih (d :: u'') v v2 w hud
            (hasSub_cons_false hv) (hasSub_cons_false hv2)
          simp only [List.cons_append, List.append_eq] at h2
          rw [h2]

theorem stripLineAux_false_passthrough :
    ∀ (x y : List Char), hasSub ['/', '/'] (x ++ y.take 1) = false →
      stripLineAux false (x ++ y) = x ++ stripLineAux false y := by
  intro x
  induction x with
  | nil =>
    intro y h
    simp
  | cons c x' ih =>
    intro y h
    cases x' with
    | nil =>
      cases y with
      | nil => simp [stripLineAux]
      | cons e y' =>
        by_cases hce : c = '/' ∧ e = '/'
        · exfalso
          obtain ⟨hc, he⟩ := hce
          subst hc
          subst he
          simp [hasSub, List.isPrefixOf] at h
        · simp only [List.cons_append, List.nil_append, stripLineAux]
          rw [if_neg hce]
    | cons d x'' =>
      by_cases hcd : c = '/' ∧ d = '/'
      · exfalso
        obtain ⟨hc, hd⟩ := hcd
        subst hc
        subst hd
        simp [hasSub, List.isPrefixOf] at h
      · simp only [List.cons_append, stripLineAux, List.append_eq]
        rw [if_neg hcd]
        have h2 := ih y (hasSub_cons_false h)
        simp only [List.cons_append, List.append_eq] at h2
        rw [h2]

/-- C6 counterexample.  In the content `/* ?. // */` the only occurrence of
the optional-chaining pattern `?.` lies inside the `/*...*/` block comment
(the content is literally `/*` ++ body ++ `*/` with `?.` in the body), yet
`_detect_js` reports one hit for it: the line-comment pass fires on the `//`
inside the block comment and deletes the block's terminator, so the
block-comment pass no longer matches and the body stays visible.  Stripping
the same block comment with an empty body yields zero hits, so the body's
match is what is counted. -/
theorem c6_comment_stripping_counterexample :
    "/* ?. // */".toList
      = ['/', '*'] ++ (" ?. // " : String).toList ++ ['*', '/']
    ∧ detectJs countOptChain "/* ?. // */".toList = 1
    ∧ stripJs "/* ?. // */".toList = "/* ?. ".toList
    ∧ detectJs countOptChain ("/*" ++ "*/").toList = 0 := by
  refine ⟨rfl, rfl, rfl, rfl⟩

/-- C6 as amended.  `_detect_js` applies the js rules to the content after
stripping line comments and then block comments; a pattern match lying
inside a `//` line comment never contributes a hit (the counts are
insensitive to the newline-free body of a line comment), and a match inside
a terminated `/*...*/` block comment contributes no hit provided no `//`
occurs in or before the comment (up to the first character after its
terminator) and no stray `*/` precedes the terminator.  Without that
proviso a match inside a block comment can survive stripping and be counted,
as the counterexample shows. -/
theorem c6_comment_stripping_amended :
    (∀ (m : List Char → Nat) (c : List Char),
        detectJs m c = m (stripBlockComments (stripLineComments c)))
    ∧ (∀ u v v2 w : List Char, '\n' ∉ v → '\n' ∉ v2 →
        stripJs (u ++ '/' :: '/' :: (v ++ w))
          = stripJs (u ++ '/' :: '/' :: (v2 ++ w))
        ∧ ∀ m : List Char → Nat,
            detectJs m (u ++ '/' :: '/' :: (v ++ w))
              = detectJs m (u ++ '/' :: '/' :: (v2 ++ w)))
    ∧ (∀ u v v2 w : List Char,
        hasSub ['/', '/'] (u ++ '/' :: '*' :: (v ++ '*' :: '/' :: w.take 1))
          = false →
        hasSub ['/', '/'] (u ++ '/' :: '*' :: (v2 ++ '*' :: '/' :: w.take 1))
          = false →
        hasSub ['*', '/'] (u ++ '/' :: '*' :: v) = false →
        hasSub ['*', '/'] (u ++ '/' :: '*' :: v2) = false →
        stripJs (u ++ '/' :: '*' :: (v ++ '*' :: '/' :: w))
          = stripJs (u ++ '/' :: '*' :: (v2 ++ '*' :: '/' :: w))
        ∧ ∀ m : List Char → Nat,
            detectJs m (u ++ '/' :: '*' :: (v ++ '*' :: '/' :: w))
              = detectJs m (u ++ '/' :: '*' :: (v2 ++ '*' :: '/' :: w))) := by
  refine ⟨fun m c => rfl, ?_, ?_⟩
  · intro u v v2 w hv hv2
    have hs : stripJs (u ++ '/' :: '/' :: (v ++ w))
        = stripJs (u ++ '/' :: '/' :: (v2 ++ w)) := by
      unfold stripJs stripLineComments
      rw [stripLineAux_comment_insens u.length u false v v2 w le_rfl hv hv2]
    exact ⟨hs, fun m => congrArg m hs⟩
  · intro u v v2 w hl1 hl2 hb1 hb2
    have hx1 : u ++ '/' :: '*' :: (v ++ '*' :: '/' :: w)
        = (u ++ '/' :: '*' :: (v ++ ['*', '/'])) ++ w := by
      simp
    have hx2 : u ++ '/' :: '*' :: (v2 ++ '*' :: '/' :: w)
        = (u ++ '/' :: '*' :: (v2 ++ ['*', '/'])) ++ w := by
      simp
    have hp1 : hasSub ['/', '/']
        ((u ++ '/' :: '*' :: (v ++ ['*', '/'])) ++ w.take 1) = false := by
      have := hl1
      simpa [List.append_assoc] using this
    have hp2 : hasSub ['/', '/']
        ((u ++ '/' :: '*' :: (v2 ++ ['*', '/'])) ++ w.take 1) = false := by
      have := hl2
      simpa [List.append_assoc] using this
    have hs : stripJs (u ++ '/' :: '*' :: (v ++ '*' :: '/' :: w))
        = stripJs (u ++ '/' :: '*' :: (v2 ++ '*' :: '/' :: w)) := by
      unfold stripJs stripLineComments stripBlockComments
      rw [hx1, hx2]
      rw [stripLineAux_false_passthrough _ w hp1,
          stripLineAux_false_passthrough _ w hp2]
      have hy1 : (u ++ '/' :: '*' :: (v ++ ['*', '/'])) ++ stripLineAux false w
          = u ++ '/' :: '*' :: (v ++ '*' :: '/' :: stripLineAux false w) := by
        simp
      have hy2 : (u ++ '/' :: '*' :: (v2 ++ ['*', '/'])) ++ stripLineAux false w
          = u ++ '/' :: '*' :: (v2 ++ '*' :: '/' :: stripLineAux false w) := by
        simp
      rw [hy1, hy2]
      exact stripBlockAux_comment_insens u.length u v v2
        (stripLineAux false w) le_rfl hb1 hb2
    exact ⟨hs, fun m => congrArg m hs⟩

/-- Witness for C6 as amended: emptying the body of the line comment in
`a // x.\nb` and of the block comment in `a /* ?. */ b` changes neither the
stripped text nor any detection count. -/
theorem c6_comment_stripping_amended_witness :
    stripJs ("a ".toList ++ '/' :: '/' :: (" x.".toList ++ "\nb".toList))
      = stripJs ("a ".toList ++ '/' :: '/' :: ([] ++ "\nb".toList))
    ∧ stripJs ("a ".toList ++ '/' :: '*' :: (" ?. ".toList
        ++ '*' :: '/' :: " b".toList))
      = stripJs ("a ".toList ++ '/' :: '*' :: ([]
        ++ '*' :: '/' :: " b".toList)) :=
  ⟨(c6_comment_stripping_amended.2.1 "a ".toList " x.".toList []
      "\nb".toList (by decide) (by decide)).1,
   (c6_comment_stripping_amended.2.2 "a ".toList " ?. ".toList []
      " b".toList (by decide) (by decide) (by decide) (by decide)).1⟩
